import Mathlib

/-!
Shallow embedding of the yt_obsidian package (clients/youtube_client.py and
clients/openai_compatible_client.py) and proofs about it.

Strings are modelled as lists of characters (`Str`).  Remote calls (the
YouTube Data API search endpoints and the OpenAI-compatible chat endpoint)
are modelled as explicit function parameters so that every possible remote
behaviour, including failures, can be quantified over.
-/

/-- Character strings of the Python source, modelled as lists of `Char`. -/
abbrev Str := List Char

/-- Shorthand: the character list of a string literal. -/
def lit (s : String) : Str := s.data

/-- `startsWith s pat` is true when `pat` is a prefix of `s`
(the anchored part of a `re` pattern matching at the current position). -/
def startsWith : Str → Str → Bool
  | _, [] => true
  | [], _ :: _ => false
  | c :: s, p :: ps => (c == p) && startsWith s ps

/-- Python substring containment, `pat in s`: `pat` occurs at some position of `s`. -/
def hasSub : Str → Str → Bool
  | [], pat => startsWith [] pat
  | c :: tl, pat => startsWith (c :: tl) pat || hasSub tl pat

/-- `re.search` for a pattern of the shape `lit([^D]+)`: scan for the leftmost
position where the literal `pat` occurs followed by at least one character not
satisfying `isDelim`; the returned group is the maximal run of such characters. -/
def findGroup (pat : Str) (isDelim : Char → Bool) : Str → Option Str
  | [] => none
  | c :: tl =>
    if startsWith (c :: tl) pat then
      if (((c :: tl).drop pat.length).takeWhile (fun d => !(isDelim d))).isEmpty then
        findGroup pat isDelim tl
      else some (((c :: tl).drop pat.length).takeWhile (fun d => !(isDelim d)))
    else findGroup pat isDelim tl

/-- The delimiter class `[/?&#]` of the URL-extraction regexes. -/
def delim4 (c : Char) : Bool := c == '/' || c == '?' || c == '&' || c == '#'

/-- The delimiter class `[&]` of the `v=`/`list=` regexes. -/
def delimAmp (c : Char) : Bool := c == '&'

/-- The character class `[a-zA-Z0-9_-]` of the bare-ID regexes. -/
def isIdChar (c : Char) : Bool := c.isAlphanum || c == '_' || c == '-'

/-- `re.match(r'^[a-zA-Z0-9_-]\x7b11\x7d$', s)`: exactly 11 ID characters. -/
def matchesVideoId (s : Str) : Bool := (s.length == 11) && s.all isIdChar

/-- `re.match(r'^PL[a-zA-Z0-9_-]\x7b16,\x7d$', s)`. -/
def matchesPL (s : Str) : Bool :=
  startsWith s (lit "PL") && (18 ≤ s.length) && (s.drop 2).all isIdChar

/-- `re.match(r'^[a-zA-Z0-9_-]\x7b9,\x7d$', s)`. -/
def matchesBare9 (s : Str) : Bool := (9 ≤ s.length) && s.all isIdChar

/-- `re.match(r'^UC[a-zA-Z0-9_-]\x7b22\x7d$', s)`. -/
def matchesUC (s : Str) : Bool :=
  startsWith s (lit "UC") && (s.length == 24) && (s.drop 2).all isIdChar

/-- One item of a `search().list` response restricted to the fields
`verify_input_type` reads: `id.kind` and the three possible ID fields.
A missing field is `none`. -/
structure GItem where
  kind : Str
  videoId : Option Str
  playlistId : Option Str
  channelId : Option Str

/-- The remote YouTube Data API as seen by `verify_input_type`:
`channelSearch q` models `search().list(q=q, type="channel", maxResults=1)`,
returning the list of per-item `id.channelId` values; `generalSearch q` models
the untyped fallback search.  `.error` models a raised exception. -/
structure YoutubeApi where
  channelSearch : Str → Except Unit (List (Option Str))
  generalSearch : Str → Except Unit (List GItem)

/-- Python truthiness of an optional string (`None` and `""` are falsy). -/
def truthy : Option Str → Bool
  | some s => !s.isEmpty
  | none => false

/-- The `content_type` literals returned by `verify_input_type`. -/
def kVideo : Str := lit "video"

/-- The playlist content-type literal. -/
def kPlaylist : Str := lit "playlist"

/-- The channel content-type literal. -/
def kChannel : Str := lit "channel"

/-- youtube_client.py lines 164-171: shortened `youtu.be/` URLs. -/
def branchShort (s : Str) : Option (Str × Str) :=
  if hasSub s (lit "youtu.be/") then
    (findGroup (lit "youtu.be/") delim4 s).map (fun g => (kVideo, g))
  else none

/-- The second, `@`-free channel search attempted inside the handle-URL
branch (youtube_client.py lines 205-221), and the single search of the
`/c/` branch: return the channel when the first item carries a truthy ID. -/
def searchChannelOnce (api : YoutubeApi) (q : Str) : Option (Str × Str) :=
  match api.channelSearch q with
  | .error _ => none
  | .ok items =>
    match items with
    | i0 :: _ => if truthy i0 then some (kChannel, i0.getD []) else none
    | [] => none

/-- youtube_client.py lines 173-223: handle URLs (`youtube.com` and `@` both
present).  The primary search uses `"@" + handle`; when it yields no usable ID
the alternative search without `@` runs; an exception in either search falls
through to the later branches. -/
def branchHandleUrl (api : YoutubeApi) (s : Str) : Option (Str × Str) :=
  if hasSub s (lit "youtube.com") && hasSub s (lit "@") then
    match findGroup (lit "@") delim4 s with
    | some handle =>
      match api.channelSearch ('@' :: handle) with
      | .error _ => none
      | .ok items =>
        match items with
        | i0 :: _ =>
          if truthy i0 then some (kChannel, i0.getD [])
          else searchChannelOnce api handle
        | [] => searchChannelOnce api handle
    | none => none
  else none

/-- youtube_client.py lines 225-231: `youtube.com/watch` URLs, `v=([^&]+)`. -/
def branchWatch (s : Str) : Option (Str × Str) :=
  if hasSub s (lit "youtube.com/watch") then
    (findGroup (lit "v=") delimAmp s).map (fun g => (kVideo, g))
  else none

/-- youtube_client.py lines 233-239: embedded video URLs. -/
def branchEmbed (s : Str) : Option (Str × Str) :=
  if hasSub s (lit "youtube.com/embed/") then
    (findGroup (lit "embed/") delim4 s).map (fun g => (kVideo, g))
  else none

/-- youtube_client.py lines 241-247: YouTube Shorts URLs. -/
def branchShorts (s : Str) : Option (Str × Str) :=
  if hasSub s (lit "youtube.com/shorts/") then
    (findGroup (lit "shorts/") delim4 s).map (fun g => (kVideo, g))
  else none

/-- youtube_client.py lines 249-255: `v/` format URLs. -/
def branchVSlash (s : Str) : Option (Str × Str) :=
  if hasSub s (lit "youtube.com/v/") then
    (findGroup (lit "v/") delim4 s).map (fun g => (kVideo, g))
  else none

/-- youtube_client.py lines 257-263: mobile `m.youtube.com` URLs. -/
def branchMobile (s : Str) : Option (Str × Str) :=
  if hasSub s (lit "m.youtube.com/") then
    (findGroup (lit "v=") delimAmp s).map (fun g => (kVideo, g))
  else none

/-- youtube_client.py lines 265-271: legacy `web/` URLs. -/
def branchWeb (s : Str) : Option (Str × Str) :=
  if hasSub s (lit "youtube.com/web/") then
    (findGroup (lit "web/") delim4 s).map (fun g => (kVideo, g))
  else none

/-- youtube_client.py lines 273-296: bare `@handle` inputs; one channel
search, returning only when the first item has a truthy channel ID. -/
def branchAt (api : YoutubeApi) (s : Str) : Option (Str × Str) :=
  if hasSub s (lit "@") then
    match findGroup (lit "@") delim4 s with
    | some handle => searchChannelOnce api ('@' :: handle)
    | none => none
  else none

/-- youtube_client.py lines 298-319: `/c/` custom-name channel URLs. -/
def branchC (api : YoutubeApi) (s : Str) : Option (Str × Str) :=
  if hasSub s (lit "youtube.com/c/") then
    match findGroup (lit "c/") delim4 s with
    | some name => searchChannelOnce api name
    | none => none
  else none

/-- youtube_client.py lines 321-327: direct `/channel/` URLs. -/
def branchChannelUrl (s : Str) : Option (Str × Str) :=
  if hasSub s (lit "youtube.com/channel/") then
    (findGroup (lit "channel/") delim4 s).map (fun g => (kChannel, g))
  else none

/-- youtube_client.py lines 329-335: playlist URLs, both direct and inside
watch URLs (`youtube.com/playlist` or any `list=` query parameter). -/
def branchPlaylistUrl (s : Str) : Option (Str × Str) :=
  if hasSub s (lit "youtube.com/playlist") || hasSub s (lit "list=") then
    (findGroup (lit "list=") delimAmp s).map (fun g => (kPlaylist, g))
  else none

/-- youtube_client.py lines 336-339: bare 11-character video IDs. -/
def branchBareVideo (s : Str) : Option (Str × Str) :=
  if matchesVideoId s then some (kVideo, s) else none

/-- youtube_client.py lines 341-344: bare playlist ID patterns
(`PL` + 16 or more ID characters, or any 9-or-more-character ID token). -/
def branchBarePlaylist (s : Str) : Option (Str × Str) :=
  if matchesPL s || matchesBare9 s then some (kPlaylist, s) else none

/-- youtube_client.py lines 346-349: bare `UC` + 22 character channel IDs. -/
def branchBareChannel (s : Str) : Option (Str × Str) :=
  if matchesUC s then some (kChannel, s) else none

/-- youtube_client.py lines 351-396: the API fallback search across all
three kinds; unknown kinds, missing IDs, empty results and exceptions all
yield the negative result. -/
def branchFallback (api : YoutubeApi) (s : Str) : Option (Str × Str) :=
  match api.generalSearch s with
  | .error _ => none
  | .ok [] => none
  | .ok (top :: _) =>
    if top.kind == lit "youtube#video" then
      if truthy top.videoId then some (kVideo, top.videoId.getD []) else none
    else if top.kind == lit "youtube#playlist" then
      if truthy top.playlistId then some (kPlaylist, top.playlistId.getD []) else none
    else if top.kind == lit "youtube#channel" then
      if truthy top.channelId then some (kChannel, top.channelId.getD []) else none
    else none

/-- `YoutubeClient.verify_input_type` (youtube_client.py lines 152-396): the
ordered early-return chain of URL-shape branches, bare-ID heuristics and the
API fallback.  Returns the pair `(content_type, content_id)`, both `None` when
nothing is identified. -/
def verifyInputType (api : YoutubeApi) (s : Str) : Option Str × Option Str :=
  match branchShort s <|> branchHandleUrl api s <|> branchWatch s <|>
      branchEmbed s <|> branchShorts s <|> branchVSlash s <|>
      branchMobile s <|> branchWeb s <|> branchAt api s <|>
      branchC api s <|> branchChannelUrl s <|> branchPlaylistUrl s <|>
      branchBareVideo s <|> branchBarePlaylist s <|> branchBareChannel s <|>
      branchFallback api s with
  | some (k, v) => (some k, some v)
  | none => (none, none)

/-- An API whose every call raises, usable for concrete evaluations of the
branches that never reach the network. -/
def nullApi : YoutubeApi where
  channelSearch := fun _ => .error ()
  generalSearch := fun _ => .error ()

example : verifyInputType nullApi (lit "https://youtu.be/dQw4w9WgXcQ") =
    (some kVideo, some (lit "dQw4w9WgXcQ")) := by decide

example : verifyInputType nullApi (lit "https://www.youtube.com/watch?v=dQw4w9WgXcQ&list=PLxxx") =
    (some kVideo, some (lit "dQw4w9WgXcQ")) := by decide

example : verifyInputType nullApi (lit "dQw4w9WgXcQ") =
    (some kVideo, some (lit "dQw4w9WgXcQ")) := by decide

example : verifyInputType nullApi (lit "UCxxxxxxxxxxxxxxxxxxxxxx") =
    (some kPlaylist, some (lit "UCxxxxxxxxxxxxxxxxxxxxxx")) := by decide

example : verifyInputType nullApi
      (lit "https://www.youtube.com/playlist?list=PLlaN88a7y2_plecYoJxvRFTLHVbIVAOoS") =
    (some kPlaylist, some (lit "PLlaN88a7y2_plecYoJxvRFTLHVbIVAOoS")) := by decide

/-! ## Transcript chunking (openai_compatible_client.py lines 165-213) -/

/-- Whether `c` is one of the sentence-ending characters `.`, `!`, `?`. -/
def isBreakChar (c : Char) : Bool := c == '.' || c == '!' || c == '?'

/-- Whether a list begins with a sentence break: a break character
immediately followed by a space. -/
def checkTwo : Str → Bool
  | c1 :: c2 :: _ => isBreakChar c1 && (c2 == ' ')
  | _ => false

/-- Whether a sentence break (`". "`, `"! "` or `"? "`) starts at index `i`. -/
def breakAt (l : Str) (i : Nat) : Bool := checkTwo (l.drop i)

/-- `max(st.rfind('. '), st.rfind('! '), st.rfind('? '))` of the source,
as an option: the largest index at which a sentence break starts. -/
def lastBreak (l : Str) : Option Nat :=
  ((List.range l.length).filter (fun i => breakAt l i)).max?

/-- Python slicing `t[a:b]` with full semantics: negative indices count from
the end, and both bounds are clamped to `[0, len]`. -/
def pyIdx (L : Int) (a : Int) : Nat :=
  (if a < 0 then max (L + a) 0 else min a L).toNat

def pySlice (t : Str) (a b : Int) : Str :=
  (t.take (pyIdx t.length b)).drop (pyIdx t.length a)

/-- `int(max_chars * 0.8)` of the source, as exact arithmetic. -/
def window80 (maxChars : Nat) : Nat := 4 * maxChars / 5

/-- One iteration of the chunking loop: the cut position chosen for the chunk
beginning at `s`.  When the tentative end `s + maxChars` is inside the text,
the last sentence break in the final 20 percent window moves the cut just
past the break; otherwise the tentative end stands. -/
def searchStart (maxChars : Nat) (s : Int) : Int := max (s + window80 maxChars) 0

def computeEnd (t : Str) (maxChars : Nat) (s : Int) : Int :=
  if s + (maxChars : Int) < (t.length : Int) then
    match lastBreak (pySlice t (searchStart maxChars s) (s + maxChars)) with
    | some p => searchStart maxChars s + p + 2
    | none => s + maxChars
  else s + maxChars

/-- The `while start < len(transcript)` loop of `_chunk_transcript`, with
explicit fuel: the Python loop does not terminate on every input (the start
position can stall), which the `none` result models. -/
def chunkGo (t : Str) (maxChars overlap : Nat) : Nat → Int → Option (List Str)
  | 0, s => if s < (t.length : Int) then none else some []
  | fuel + 1, s =>
    if s < (t.length : Int) then
      match chunkGo t maxChars overlap fuel (computeEnd t maxChars s - overlap) with
      | some cs => some (pySlice t s (computeEnd t maxChars s) :: cs)
      | none => none
    else some []

/-- `_chunk_transcript(transcript, max_chars, overlap)`: texts not exceeding
`maxChars` form a single chunk; longer texts run the cutting loop. -/
def chunkTranscript (t : Str) (maxChars overlap fuel : Nat) : Option (List Str) :=
  if t.length ≤ maxChars then some [t] else chunkGo t maxChars overlap fuel 0

/-- Concatenation of the chunks with each chunk after the first stripped of
its leading `overlap` characters (its repetition of the previous chunk's
tail): the non-overlapping cores of the claim. -/
def joinCores (overlap : Nat) : List Str → Str
  | [] => []
  | c :: rest => c ++ (rest.map (fun d => d.drop overlap)).flatten

example : chunkTranscript (lit "aaaaa") 2 1 5 =
    some [lit "aa", lit "aa", lit "aa", lit "aa", lit "a"] := by decide

example : (chunkTranscript (lit "aaaaa") 2 1 5).map (joinCores 1) = some (lit "aaaaa") := by
  decide

example : (chunkTranscript (List.replicate 30 'a') 10 5 30).map List.length =
    some 6 := by decide

/-! ## OpenAI-compatible client (openai_compatible_client.py) -/

/-- The exception classes distinguished by `_make_api_request`: the five
retryable classes of its `retry_if_exception_type` tuple, and `other` for
any exception class outside the tuple (such as `ValueError`). -/
inductive ErrKind where
  | apiError
  | apiConnectionError
  | rateLimitError
  | socketTimeout
  | connectionError
  | other (name : Str)
deriving DecidableEq

/-- A raised exception: its class and its `str(e)` message. -/
structure ApiErr where
  kind : ErrKind
  msg : Str
deriving DecidableEq

/-- Whether the exception class is in the `retry_if_exception_type` tuple
(openai_compatible_client.py lines 115-122). -/
def retryable (e : ApiErr) : Bool :=
  match e.kind with
  | .other _ => false
  | _ => true

/-- `type(e).__name__` for the modelled exception classes. -/
def errName (e : ApiErr) : Str :=
  match e.kind with
  | .apiError => lit "APIError"
  | .apiConnectionError => lit "APIConnectionError"
  | .rateLimitError => lit "RateLimitError"
  | .socketTimeout => lit "timeout"
  | .connectionError => lit "ConnectionError"
  | .other n => n

/-- The attempt loop of the tenacity decorator on `_request`
(openai_compatible_client.py lines 106-124) as configured there:
`stop_after_attempt(max_retries + 1)`, retry only on `retryable` classes, and
`reraise=True`, so the exception surfaced is the attempt's own exception (the
trailing `except RetryError` of lines 159-163 is unreachable with `reraise`).
`call n` is the outcome of the n-th attempt (1-based); the second component of
the result is the number of attempts made. -/
def retryLoop (call : Nat → Except ApiErr Str) : Nat → Nat → Except ApiErr Str × Nat
  | attempt, rem =>
    match call attempt with
    | .ok r => (.ok r, attempt)
    | .error e =>
      match rem with
      | 0 => (.error e, attempt)
      | rem' + 1 =>
        if retryable e then retryLoop call (attempt + 1) rem'
        else (.error e, attempt)

/-- `_make_api_request` with `maxRetries` remaining retries after the first
attempt: runs the tenacity loop starting at attempt 1. -/
def makeApiRequest (maxRetries : Nat) (call : Nat → Except ApiErr Str) :
    Except ApiErr Str × Nat :=
  retryLoop call 1 maxRetries

example :
    makeApiRequest 2 (fun _ => .error ⟨.apiError, lit "boom"⟩) =
      (.error ⟨.apiError, lit "boom"⟩, 3) := rfl

example :
    makeApiRequest 2 (fun _ => .error ⟨.other (lit "ValueError"), lit "bad"⟩) =
      (.error ⟨.other (lit "ValueError"), lit "bad"⟩, 1) := rfl

example :
    makeApiRequest 2 (fun n => if n ≤ 2 then .error ⟨.apiError, lit "t"⟩ else .ok (lit "ok")) =
      (.ok (lit "ok"), 3) := rfl

/-- The fallback summary string of `_generate_single_summary`
(openai_compatible_client.py lines 308-314). -/
def fallbackSummary (e : ApiErr) : Str :=
  lit "## Error Generating Summary\n\nAn error occurred while generating the summary: " ++
  errName e ++ lit ": " ++ e.msg ++
  lit "\n\nPlease check the logs for more details or try again later with a different model configuration."

/-- The base summarization prompt of `_generate_single_summary`
(openai_compatible_client.py lines 237-244). -/
def basePrompt : Str :=
  lit "Summarize this lecture/interview transcript. Include:\n1. Resources mentioned (books/papers/people)\n2. Important concepts\n3. Key takeaways\n4. Chronological overview with timestamp ranges\n\nStructure the summary for readability using markdown."

/-- A summarization request: the transcript and the optional template. -/
structure SummaryRequest where
  transcript : Str
  template : Option Str

/-- A keyword-extraction request: the transcript and `max_keywords`
(default 20 in the source). -/
structure KeywordsRequest where
  transcript : Str
  maxKeywords : Nat

/-- The model endpoint as seen through `_make_api_request`: a map from the
user-message content to either `choices[0].message.content` or the exception
surfaced after retries are exhausted. -/
abbrev ModelApi := Str → Except ApiErr Str

/-- The user message of `_generate_single_summary` (lines 246-260): the base
prompt, the optional template block (appended only when the template string is
truthy), and the transcript. -/
def singleSummaryMsg (req : SummaryRequest) : Str :=
  let prompt :=
    match req.template with
    | some t => if t.isEmpty then basePrompt else basePrompt ++ lit "\n\nUse this template:\n" ++ t
    | none => basePrompt
  prompt ++ lit "\n\nHere is the transcript to summarize:\n\n" ++ req.transcript

/-- `_generate_single_summary` (lines 232-314): returns the model content, or
the fallback error summary when the request raises. -/
def generateSingleSummary (api : ModelApi) (req : SummaryRequest) : Str :=
  match api (singleSummaryMsg req) with
  | .ok content => content
  | .error e => fallbackSummary e

/-- The user message for chunk `i` (0-based) of `n` in
`_generate_chunked_summary` (lines 330-348). -/
def chunkSummaryMsg (i n : Nat) (chunk : Str) : Str :=
  lit "Summarize this SECTION " ++ lit (Nat.repr (i + 1)) ++ lit "/" ++ lit (Nat.repr n) ++
  lit " of a longer transcript. Focus on:\n1. Key points and concepts discussed\n2. People, books, or resources mentioned\n3. Important quotes or statements\n\nKeep your summary focused on just this section's content." ++
  lit "\n\nHere is section " ++ lit (Nat.repr (i + 1)) ++ lit "/" ++ lit (Nat.repr n) ++
  lit " of the transcript:\n\n" ++ chunk

/-- The meta-summary user message of `_generate_chunked_summary`
(lines 377-396). -/
def metaSummaryMsg (combined : Str) : Str :=
  lit "You have been given summaries of different sections of a longer transcript. Create a cohesive overall summary that integrates these section summaries. Include:\n1. Resources mentioned (books/papers/people) across all sections\n2. Important concepts that appear throughout\n3. Key takeaways from the entire transcript\n4. A brief overview of the content\n\nStructure the summary for readability using markdown." ++
  lit "\n\nHere are the section summaries:\n\n" ++ combined

/-- Pair each list element with its 0-based index. -/
def withIdx (start : Nat) : List α → List (Nat × α)
  | [] => []
  | a :: rest => (start, a) :: withIdx (start + 1) rest

/-- The summary produced for one chunk: the model content, or the inline
section error note (line 364). -/
def chunkSummaryOf (api : ModelApi) (n : Nat) (p : Nat × Str) : Str :=
  match api (chunkSummaryMsg p.1 n p.2) with
  | .ok r => r
  | .error e => lit "*Error processing this section: " ++ e.msg ++ lit "*"

/-- One block of the combined summary (lines 367-370). -/
def sectionBlock (n : Nat) (p : Nat × Str) : Str :=
  lit "## Section " ++ lit (Nat.repr (p.1 + 1)) ++ lit "/" ++ lit (Nat.repr n) ++
  lit " Summary\n" ++ p.2

/-- `"\n\n".join(...)` of the section blocks. -/
def combineSections (n : Nat) (summaries : List (Nat × Str)) : Str :=
  (List.intercalate (lit "\n\n") (summaries.map (sectionBlock n)))

/-- `_generate_chunked_summary` (lines 316-426): chunk the transcript (with
the default overlap of 500), summarize each chunk with per-chunk error notes,
join the section blocks, and for more than one chunk attempt a meta-summary,
falling back to the plain section summaries when it raises.  `none` models
the chunking loop not terminating. -/
def sectionSummaries (api : ModelApi) (chunks : List Str) : List (Nat × Str) :=
  (withIdx 0 chunks).map (fun p => (p.1, chunkSummaryOf api chunks.length p))

def generateChunkedSummary (api : ModelApi) (maxChars fuel : Nat)
    (req : SummaryRequest) : Option Str :=
  match chunkTranscript req.transcript maxChars 500 fuel with
  | none => none
  | some chunks =>
    if 1 < chunks.length then
      match api (metaSummaryMsg (combineSections chunks.length
          (sectionSummaries api chunks))) with
      | .ok r =>
        some (lit "# Overall Summary\n\n" ++ r ++
          lit "\n\n# Detailed Section Summaries\n\n" ++
          combineSections chunks.length (sectionSummaries api chunks))
      | .error _ =>
        some (lit "# Transcript Section Summaries\n\n" ++
          combineSections chunks.length (sectionSummaries api chunks))
    else some (((sectionSummaries api chunks).map Prod.snd).headD [])

/-- `generate_summary` (lines 215-230): transcripts longer than the model's
`max_transcript_chars` take the chunked path, others the single path. -/
def generateSummary (api : ModelApi) (maxChars fuel : Nat)
    (req : SummaryRequest) : Option Str :=
  if maxChars < req.transcript.length then generateChunkedSummary api maxChars fuel req
  else some (generateSingleSummary api req)

/-- Python `str.strip()` restricted to whitespace characters. -/
def pyStrip (s : Str) : Str :=
  ((s.dropWhile Char.isWhitespace).reverse.dropWhile Char.isWhitespace).reverse

/-- `[kw.strip() for kw in text.split(',') if kw.strip()]`
(openai_compatible_client.py line 514 and line 580). -/
def parseKeywords (text : Str) : List Str :=
  ((text.splitOn ',').map pyStrip).filter (fun k => !k.isEmpty)

example : parseKeywords (lit " AI ,  , Machine Learning,ml") =
    [lit "AI", lit "Machine Learning", lit "ml"] := by decide

/-- Python `str.lower()` (ASCII-faithful; the source compares keywords with
`kw.lower()`). -/
def lowerStr (s : Str) : Str := s.map Char.toLower

/-- The seen-set deduplication loop of `_generate_chunked_keywords`
(lines 589-595): keep a keyword when its lowercase form has not appeared
before, preserving order and original casing. -/
def dedupCIGo (seen : List Str) : List Str → List Str
  | [] => []
  | k :: rest =>
    if seen.contains (lowerStr k) then dedupCIGo seen rest
    else k :: dedupCIGo (lowerStr k :: seen) rest

/-- Case-insensitive first-wins deduplication, the whole loop started with an
empty seen set. -/
def dedupCI (l : List Str) : List Str := dedupCIGo [] l

example : dedupCI [lit "AI", lit "ai", lit "Machine Learning"] =
    [lit "AI", lit "Machine Learning"] := by decide

/-- The user message of `_generate_single_keywords` (lines 450-468). -/
def singleKeywordsMsg (req : KeywordsRequest) : Str :=
  lit "Extract the most important keywords and key phrases from this transcript. Focus on main topics, concepts, people, technologies, and terminology mentioned. Return a list of " ++
  lit (Nat.repr req.maxKeywords) ++
  lit " keywords or phrases, ordered by relevance. Format as a simple comma-separated list without numbering or bullet points." ++
  lit "\n\nHere is the transcript to extract keywords from:\n\n" ++ req.transcript

/-- `_generate_single_keywords` (lines 445-532): parse the comma-separated
response, or return the empty list when the request raises. -/
def generateSingleKeywords (api : ModelApi) (req : KeywordsRequest) : List Str :=
  match api (singleKeywordsMsg req) with
  | .ok text => parseKeywords text
  | .error _ => []

/-- The user message for chunk `i` (0-based) of `n` in
`_generate_chunked_keywords` (lines 548-565); the chunk is asked for
`min(request.max_keywords, 10)` keywords. -/
def chunkKeywordsMsg (i n mk : Nat) (chunk : Str) : Str :=
  lit "Extract the most important keywords and key phrases from this SECTION " ++
  lit (Nat.repr (i + 1)) ++ lit "/" ++ lit (Nat.repr n) ++
  lit " of a longer transcript. Focus on main topics, concepts, people, technologies, and terminology mentioned. Return a list of " ++
  lit (Nat.repr (min mk 10)) ++
  lit " keywords or phrases from this section, ordered by relevance. Format as a simple comma-separated list without numbering or bullet points." ++
  lit "\n\nHere is section " ++ lit (Nat.repr (i + 1)) ++ lit "/" ++ lit (Nat.repr n) ++
  lit " of the transcript:\n\n" ++ chunk

/-- The keyword list contributed by one chunk: the parsed response, or
nothing when the request raises (the chunk is skipped, lines 584-586). -/
def chunkKeywordsOf (api : ModelApi) (n mk : Nat) (p : Nat × Str) : List Str :=
  match api (chunkKeywordsMsg p.1 n mk p.2) with
  | .ok text => parseKeywords text
  | .error _ => []

/-- `_generate_chunked_keywords` (lines 534-601): chunk the transcript
(default overlap 500), collect the per-chunk keyword lists in chunk order
skipping failed chunks, deduplicate case-insensitively first-wins, and
truncate to `request.max_keywords`. -/
def generateChunkedKeywords (api : ModelApi) (maxChars fuel : Nat)
    (req : KeywordsRequest) : Option (List Str) :=
  match chunkTranscript req.transcript maxChars 500 fuel with
  | none => none
  | some chunks =>
    let n := chunks.length
    let allKeywords := ((withIdx 0 chunks).map (chunkKeywordsOf api n req.maxKeywords)).flatten
    some ((dedupCI allKeywords).take req.maxKeywords)

/-- `generate_keywords` (lines 428-443): the single-vs-chunked branch. -/
def generateKeywords (api : ModelApi) (maxChars fuel : Nat)
    (req : KeywordsRequest) : Option (List Str) :=
  if maxChars < req.transcript.length then generateChunkedKeywords api maxChars fuel req
  else some (generateSingleKeywords api req)

/-! ## Helper lemmas -/

theorem startsWith_mem {s pat : Str} (h : startsWith s pat = true) :
    ∀ c ∈ pat, c ∈ s := by
  induction pat generalizing s with
  | nil => intro c hc; cases hc
  | cons p ps ih =>
    cases s with
    | nil => simp [startsWith] at h
    | cons a tl =>
      simp only [startsWith, Bool.and_eq_true, beq_iff_eq] at h
      intro c hc
      rcases List.mem_cons.mp hc with rfl | hc
      · simp [h.1]
      · exact List.mem_cons_of_mem _ (ih h.2 c hc)

theorem hasSub_mem {s pat : Str} (h : hasSub s pat = true) :
    ∀ c ∈ pat, c ∈ s := by
  induction s with
  | nil => exact startsWith_mem h
  | cons a tl ih =>
    simp only [hasSub, Bool.or_eq_true] at h
    rcases h with h | h
    · exact startsWith_mem h
    · intro c hc; exact List.mem_cons_of_mem _ (ih h c hc)

theorem hasSub_eq_false_of_idOnly {s pat : Str} {c : Char}
    (hall : ∀ c ∈ s, isIdChar c = true) (hcpat : c ∈ pat)
    (hcid : isIdChar c = false) : hasSub s pat = false := by
  cases h : hasSub s pat with
  | false => rfl
  | true => exact absurd (hall c (hasSub_mem h c hcpat)) (by simp [hcid])

theorem urlBranchesPure_none {s : Str} (hall : ∀ c ∈ s, isIdChar c = true) :
    branchShort s = none ∧ branchWatch s = none ∧ branchEmbed s = none ∧
    branchShorts s = none ∧ branchVSlash s = none ∧ branchMobile s = none ∧
    branchWeb s = none ∧ branchChannelUrl s = none ∧ branchPlaylistUrl s = none := by
  have hdot : isIdChar '.' = false := by decide
  have heq : isIdChar '=' = false := by decide
  refine ⟨?_, ?_, ?_, ?_, ?_, ?_, ?_, ?_, ?_⟩ <;>
    simp [branchShort, branchWatch, branchEmbed, branchShorts, branchVSlash,
      branchMobile, branchWeb, branchChannelUrl, branchPlaylistUrl,
      hasSub_eq_false_of_idOnly hall (by decide : '.' ∈ lit "youtu.be/") hdot,
      hasSub_eq_false_of_idOnly hall (by decide : '.' ∈ lit "youtube.com/watch") hdot,
      hasSub_eq_false_of_idOnly hall (by decide : '.' ∈ lit "youtube.com/embed/") hdot,
      hasSub_eq_false_of_idOnly hall (by decide : '.' ∈ lit "youtube.com/shorts/") hdot,
      hasSub_eq_false_of_idOnly hall (by decide : '.' ∈ lit "youtube.com/v/") hdot,
      hasSub_eq_false_of_idOnly hall (by decide : '.' ∈ lit "m.youtube.com/") hdot,
      hasSub_eq_false_of_idOnly hall (by decide : '.' ∈ lit "youtube.com/web/") hdot,
      hasSub_eq_false_of_idOnly hall (by decide : '.' ∈ lit "youtube.com/channel/") hdot,
      hasSub_eq_false_of_idOnly hall (by decide : '.' ∈ lit "youtube.com/playlist") hdot,
      hasSub_eq_false_of_idOnly hall (by decide : '=' ∈ lit "list=") heq]

theorem urlBranchesApi_none (api : YoutubeApi) {s : Str}
    (hall : ∀ c ∈ s, isIdChar c = true) :
    branchHandleUrl api s = none ∧ branchAt api s = none ∧ branchC api s = none := by
  have hdot : isIdChar '.' = false := by decide
  have hat : isIdChar '@' = false := by decide
  refine ⟨?_, ?_, ?_⟩ <;>
    simp [branchHandleUrl, branchAt, branchC,
      hasSub_eq_false_of_idOnly hall (by decide : '.' ∈ lit "youtube.com") hdot,
      hasSub_eq_false_of_idOnly hall (by decide : '@' ∈ lit "@") hat,
      hasSub_eq_false_of_idOnly hall (by decide : '.' ∈ lit "youtube.com/c/") hdot]

/-- C2 (amended, part proof): every 11-ID-character bare input classifies as a
video with the input itself as ID. -/
theorem verify_bare_video (api : YoutubeApi) (s : Str) (hlen : s.length = 11)
    (hall : ∀ c ∈ s, isIdChar c = true) :
    verifyInputType api s = (some kVideo, some s) := by
  obtain ⟨h1, h2, h3, h4, h5, h6, h7, h8, h9⟩ := urlBranchesPure_none hall
  obtain ⟨h10, h11, h12⟩ := urlBranchesApi_none api hall
  have hv : matchesVideoId s = true := by
    simp only [matchesVideoId, hlen, List.all_eq_true, Bool.and_eq_true, beq_iff_eq]
    exact ⟨trivial, hall⟩
  simp [verifyInputType, h1, h2, h3, h4, h5, h6, h7, h8, h9, h10, h11, h12,
    branchBareVideo, hv]

/-- C2 (amended, part proof): a bare `UC` + 22 ID characters input classifies
as a playlist (the generic 9-plus-character bare-token playlist pattern fires
before the channel pattern, which is unreachable for such inputs). -/
theorem verify_bare_uc_playlist (api : YoutubeApi) (r : Str) (hlen : r.length = 22)
    (hall : ∀ c ∈ r, isIdChar c = true) :
    verifyInputType api ('U' :: 'C' :: r) = (some kPlaylist, some ('U' :: 'C' :: r)) := by
  have hall' : ∀ c ∈ 'U' :: 'C' :: r, isIdChar c = true := by
    intro c hc
    rcases List.mem_cons.mp hc with rfl | hc
    · decide
    · rcases List.mem_cons.mp hc with rfl | hc
      · decide
      · exact hall c hc
  obtain ⟨h1, h2, h3, h4, h5, h6, h7, h8, h9⟩ := urlBranchesPure_none hall'
  obtain ⟨h10, h11, h12⟩ := urlBranchesApi_none api hall'
  have hv : matchesVideoId ('U' :: 'C' :: r) = false := by
    simp [matchesVideoId, hlen]
  have h9' : matchesBare9 ('U' :: 'C' :: r) = true := by
    simp only [matchesBare9, List.all_eq_true, Bool.and_eq_true, decide_eq_true_eq]
    exact ⟨by simp [hlen], hall'⟩
  simp [verifyInputType, h1, h2, h3, h4, h5, h6, h7, h8, h9, h10, h11, h12,
    branchBareVideo, hv, branchBarePlaylist, h9']

/-! ## Claim C1 -/

/-- C1: content-resolution precedence for a watch URL carrying a playlist
parameter.  The claim states that
`"https://www.youtube.com/watch?v=dQw4w9WgXcQ&list=PLxxx"` resolves to
`(playlist, "PLxxx")`; evaluating the embedded `verify_input_type` shows the
watch-URL branch returns first, so the code yields `(video, "dQw4w9WgXcQ")`
for every API behaviour, contradicting the spec and the repository test that
asserts the playlist outcome for exactly this URL shape. -/
theorem watch_url_with_list_param_resolves_video :
    verifyInputType nullApi (lit "https://www.youtube.com/watch?v=dQw4w9WgXcQ&list=PLxxx") =
      (some kVideo, some (lit "dQw4w9WgXcQ")) ∧
    verifyInputType nullApi (lit "https://www.youtube.com/watch?v=dQw4w9WgXcQ&list=PLxxx") ≠
      (some kPlaylist, some (lit "PLxxx")) := by
  constructor
  · decide
  · decide

/-! ## Claim C2 -/

/-- C2 counterexample: the bare input `"UCabcdefghijklmnopqrstuv"` (`UC`
followed by 22 ID characters) does not classify as a channel: the code
returns the playlist classification, because the generic 9-plus-character
bare-token playlist pattern is checked first. -/
theorem bare_uc_id_not_channel :
    verifyInputType nullApi (lit "UCabcdefghijklmnopqrstuv") =
      (some kPlaylist, some (lit "UCabcdefghijklmnopqrstuv")) ∧
    verifyInputType nullApi (lit "UCabcdefghijklmnopqrstuv") ≠
      (some kChannel, some (lit "UCabcdefghijklmnopqrstuv")) := by
  constructor
  · decide
  · decide

/-- C2 (amended): for every API behaviour, a bare input of exactly 11
alphanumeric/underscore/hyphen characters classifies as `(video, input)`,
and a bare input of `UC` followed by 22 such characters classifies as
`(playlist, input)` — not `(channel, input)` — since the generic bare-token
playlist pattern precedes the channel pattern. -/
theorem bare_id_classification :
    (∀ (api : YoutubeApi) (s : Str), s.length = 11 → (∀ c ∈ s, isIdChar c = true) →
      verifyInputType api s = (some kVideo, some s)) ∧
    (∀ (api : YoutubeApi) (r : Str), r.length = 22 → (∀ c ∈ r, isIdChar c = true) →
      verifyInputType api ('U' :: 'C' :: r) = (some kPlaylist, some ('U' :: 'C' :: r))) :=
  ⟨verify_bare_video, verify_bare_uc_playlist⟩

/-- C2 witness: the amended theorem applied at the concrete inputs
`"dQw4w9WgXcQ"` and `"UCabcdefghijklmnopqrstuv"`. -/
theorem bare_id_classification_witness :
    verifyInputType nullApi (lit "dQw4w9WgXcQ") = (some kVideo, some (lit "dQw4w9WgXcQ")) ∧
    verifyInputType nullApi (lit "UCabcdefghijklmnopqrstuv") =
      (some kPlaylist, some (lit "UCabcdefghijklmnopqrstuv")) :=
  ⟨bare_id_classification.1 nullApi (lit "dQw4w9WgXcQ") (by decide) (by decide),
   bare_id_classification.2 nullApi (lit "abcdefghijklmnopqrstuv") (by decide) (by decide)⟩

/-! ## Claim C5 -/

/-- C5: with `maxRetries = 2`, a call whose every attempt fails with a
retryable error is attempted exactly 3 times (one initial attempt plus two
retries) and the error surfaced is the underlying exception itself; a call
failing with a non-retryable error surfaces it after exactly one attempt. -/
theorem retry_attempt_counts (call : Nat → Except ApiErr Str) (e : ApiErr)
    (h : ∀ n, call n = .error e) :
    (retryable e = true → makeApiRequest 2 call = (.error e, 3)) ∧
    (retryable e = false → makeApiRequest 2 call = (.error e, 1)) := by
  constructor
  · intro hr
    simp [makeApiRequest, retryLoop, h, hr]
  · intro hr
    simp [makeApiRequest, retryLoop, h, hr]

/-- C5 witness: the retry-count theorem applied to a permanently failing
retryable `APIError` and to a non-retryable `ValueError`. -/
theorem retry_attempt_counts_witness :
    makeApiRequest 2 (fun _ => .error ⟨.apiError, lit "boom"⟩) =
      (.error ⟨.apiError, lit "boom"⟩, 3) ∧
    makeApiRequest 2 (fun _ => .error ⟨.other (lit "ValueError"), lit "bad"⟩) =
      (.error ⟨.other (lit "ValueError"), lit "bad"⟩, 1) :=
  ⟨(retry_attempt_counts (fun _ => .error ⟨.apiError, lit "boom"⟩)
      ⟨.apiError, lit "boom"⟩ (fun _ => rfl)).1 rfl,
   (retry_attempt_counts (fun _ => .error ⟨.other (lit "ValueError"), lit "bad"⟩)
      ⟨.other (lit "ValueError"), lit "bad"⟩ (fun _ => rfl)).2 rfl⟩

/-! ## Claim C9 -/

/-- The invariant on early-return values: a recognized kind and a non-empty ID. -/
def goodOpt (o : Option (Str × Str)) : Prop :=
  ∀ k v, o = some (k, v) → (k = kVideo ∨ k = kPlaylist ∨ k = kChannel) ∧ v ≠ []

theorem findGroup_ne_nil {pat : Str} {d : Char → Bool} {s g : Str}
    (h : findGroup pat d s = some g) : g ≠ [] := by
  induction s with
  | nil => simp [findGroup] at h
  | cons c tl ih =>
    rw [findGroup] at h
    split at h
    · split at h
      · exact ih h
      · rename_i hne
        cases h
        simpa [List.isEmpty_iff] using hne
    · exact ih h

theorem truthy_getD_ne_nil {o : Option Str} (h : truthy o = true) : o.getD [] ≠ [] := by
  cases o with
  | none => simp [truthy] at h
  | some s => simpa [truthy, List.isEmpty_iff] using h

theorem goodOpt_none : goodOpt none := by
  intro k v h; cases h

theorem goodOpt_orElse {a b : Option (Str × Str)} (ha : goodOpt a) (hb : goodOpt b) :
    goodOpt (a <|> b) := by
  cases a with
  | none => simpa using hb
  | some x => intro k v h; exact ha k v (by simpa using h)

theorem goodOpt_mapVideo {o : Option Str} (ho : ∀ g, o = some g → g ≠ []) :
    goodOpt (o.map (fun g => (kVideo, g))) := by
  intro k v h
  cases o with
  | none => cases h
  | some g =>
    simp only [Option.map_some', Option.some.injEq, Prod.mk.injEq] at h
    obtain ⟨rfl, rfl⟩ := h
    exact ⟨Or.inl rfl, ho g rfl⟩

theorem goodOpt_mapPlaylist {o : Option Str} (ho : ∀ g, o = some g → g ≠ []) :
    goodOpt (o.map (fun g => (kPlaylist, g))) := by
  intro k v h
  cases o with
  | none => cases h
  | some g =>
    simp only [Option.map_some', Option.some.injEq, Prod.mk.injEq] at h
    obtain ⟨rfl, rfl⟩ := h
    exact ⟨Or.inr (Or.inl rfl), ho g rfl⟩

theorem goodOpt_mapChannel {o : Option Str} (ho : ∀ g, o = some g → g ≠ []) :
    goodOpt (o.map (fun g => (kChannel, g))) := by
  intro k v h
  cases o with
  | none => cases h
  | some g =>
    simp only [Option.map_some', Option.some.injEq, Prod.mk.injEq] at h
    obtain ⟨rfl, rfl⟩ := h
    exact ⟨Or.inr (Or.inr rfl), ho g rfl⟩

theorem goodOpt_ifGuard {c : Bool} {o : Option (Str × Str)} (ho : goodOpt o) :
    goodOpt (if c then o else none) := by
  cases c
  · simpa using goodOpt_none
  · simpa using ho

theorem searchChannelOnce_good (api : YoutubeApi) (q : Str) :
    goodOpt (searchChannelOnce api q) := by
  intro k v h
  unfold searchChannelOnce at h
  split at h
  · cases h
  · split at h
    · rename_i i0 _
      split at h
      · cases h
        exact ⟨Or.inr (Or.inr rfl), truthy_getD_ne_nil (by assumption)⟩
      · cases h
    · cases h

theorem branchShort_good (s : Str) : goodOpt (branchShort s) :=
  goodOpt_ifGuard (goodOpt_mapVideo (fun _ h => findGroup_ne_nil h))

theorem branchHandleUrl_good (api : YoutubeApi) (s : Str) :
    goodOpt (branchHandleUrl api s) := by
  unfold branchHandleUrl
  refine goodOpt_ifGuard ?_
  intro k v h
  split at h
  · split at h
    · cases h
    · split at h
      · rename_i i0 _
        split at h
        · cases h
          exact ⟨Or.inr (Or.inr rfl), truthy_getD_ne_nil (by assumption)⟩
        · exact searchChannelOnce_good api _ k v h
      · exact searchChannelOnce_good api _ k v h
  · cases h

theorem branchWatch_good (s : Str) : goodOpt (branchWatch s) :=
  goodOpt_ifGuard (goodOpt_mapVideo (fun _ h => findGroup_ne_nil h))

theorem branchEmbed_good (s : Str) : goodOpt (branchEmbed s) :=
  goodOpt_ifGuard (goodOpt_mapVideo (fun _ h => findGroup_ne_nil h))

theorem branchShorts_good (s : Str) : goodOpt (branchShorts s) :=
  goodOpt_ifGuard (goodOpt_mapVideo (fun _ h => findGroup_ne_nil h))

theorem branchVSlash_good (s : Str) : goodOpt (branchVSlash s) :=
  goodOpt_ifGuard (goodOpt_mapVideo (fun _ h => findGroup_ne_nil h))

theorem branchMobile_good (s : Str) : goodOpt (branchMobile s) :=
  goodOpt_ifGuard (goodOpt_mapVideo (fun _ h => findGroup_ne_nil h))

theorem branchWeb_good (s : Str) : goodOpt (branchWeb s) :=
  goodOpt_ifGuard (goodOpt_mapVideo (fun _ h => findGroup_ne_nil h))

theorem branchAt_good (api : YoutubeApi) (s : Str) : goodOpt (branchAt api s) := by
  unfold branchAt
  refine goodOpt_ifGuard ?_
  intro k v h
  split at h
  · exact searchChannelOnce_good api _ k v h
  · cases h

theorem branchC_good (api : YoutubeApi) (s : Str) : goodOpt (branchC api s) := by
  unfold branchC
  refine goodOpt_ifGuard ?_
  intro k v h
  split at h
  · exact searchChannelOnce_good api _ k v h
  · cases h

theorem branchChannelUrl_good (s : Str) : goodOpt (branchChannelUrl s) :=
  goodOpt_ifGuard (goodOpt_mapChannel (fun _ h => findGroup_ne_nil h))

theorem branchPlaylistUrl_good (s : Str) : goodOpt (branchPlaylistUrl s) :=
  goodOpt_ifGuard (goodOpt_mapPlaylist (fun _ h => findGroup_ne_nil h))

theorem branchBareVideo_good (s : Str) : goodOpt (branchBareVideo s) := by
  unfold branchBareVideo
  intro k v h
  split at h
  · rename_i hm
    cases h
    refine ⟨Or.inl rfl, ?_⟩
    simp only [matchesVideoId, Bool.and_eq_true, beq_iff_eq] at hm
    intro hnil
    rw [hnil] at hm
    simp at hm
  · cases h

theorem branchBarePlaylist_good (s : Str) : goodOpt (branchBarePlaylist s) := by
  unfold branchBarePlaylist
  intro k v h
  split at h
  · rename_i hm
    cases h
    refine ⟨Or.inr (Or.inl rfl), ?_⟩
    simp only [matchesPL, matchesBare9, Bool.or_eq_true, Bool.and_eq_true,
      decide_eq_true_eq] at hm
    intro hnil
    rw [hnil] at hm
    simp at hm
  · cases h

theorem branchBareChannel_good (s : Str) : goodOpt (branchBareChannel s) := by
  unfold branchBareChannel
  intro k v h
  split at h
  · rename_i hm
    cases h
    refine ⟨Or.inr (Or.inr rfl), ?_⟩
    simp only [matchesUC, Bool.and_eq_true, beq_iff_eq] at hm
    intro hnil
    rw [hnil] at hm
    simp at hm
  · cases h

theorem branchFallback_good (api : YoutubeApi) (s : Str) :
    goodOpt (branchFallback api s) := by
  unfold branchFallback
  intro k v h
  split at h
  · cases h
  · cases h
  · split at h
    · split at h
      · cases h
        exact ⟨Or.inl rfl, truthy_getD_ne_nil (by assumption)⟩
      · cases h
    · split at h
      · split at h
        · cases h
          exact ⟨Or.inr (Or.inl rfl), truthy_getD_ne_nil (by assumption)⟩
        · cases h
      · split at h
        · split at h
          · cases h
            exact ⟨Or.inr (Or.inr rfl), truthy_getD_ne_nil (by assumption)⟩
          · cases h
        · cases h

/-- C9: for every input string and every behaviour of the remote search API,
`verify_input_type` returns either `(None, None)` or `(kind, id)` with `kind`
one of `video`, `playlist`, `channel` and `id` a non-empty string. -/
theorem verify_input_type_invariant (api : YoutubeApi) (s : Str) :
    verifyInputType api s = (none, none) ∨
    ∃ k v, verifyInputType api s = (some k, some v) ∧ v ≠ [] ∧
      (k = kVideo ∨ k = kPlaylist ∨ k = kChannel) := by
  have hg : goodOpt (branchShort s <|> branchHandleUrl api s <|> branchWatch s <|>
      branchEmbed s <|> branchShorts s <|> branchVSlash s <|>
      branchMobile s <|> branchWeb s <|> branchAt api s <|>
      branchC api s <|> branchChannelUrl s <|> branchPlaylistUrl s <|>
      branchBareVideo s <|> branchBarePlaylist s <|> branchBareChannel s <|>
      branchFallback api s) :=
    goodOpt_orElse (branchShort_good s) (goodOpt_orElse (branchHandleUrl_good api s)
      (goodOpt_orElse (branchWatch_good s) (goodOpt_orElse (branchEmbed_good s)
      (goodOpt_orElse (branchShorts_good s) (goodOpt_orElse (branchVSlash_good s)
      (goodOpt_orElse (branchMobile_good s) (goodOpt_orElse (branchWeb_good s)
      (goodOpt_orElse (branchAt_good api s) (goodOpt_orElse (branchC_good api s)
      (goodOpt_orElse (branchChannelUrl_good s) (goodOpt_orElse (branchPlaylistUrl_good s)
      (goodOpt_orElse (branchBareVideo_good s) (goodOpt_orElse (branchBarePlaylist_good s)
      (goodOpt_orElse (branchBareChannel_good s) (branchFallback_good api s)))))))))))))))
  unfold verifyInputType
  split
  · rename_i k v hrv
    rcases hg k v hrv with ⟨hk, hv⟩
    exact Or.inr ⟨k, v, rfl, hv, hk⟩
  · exact Or.inl rfl

/-! ## Claim C10 -/

/-- C10: on the single-chunk path (transcript within `max_transcript_chars`),
`generate_keywords` returns exactly the non-empty trimmed comma-separated
tokens of the model response, with no case-insensitive deduplication and no
truncation to `max_keywords`: the concrete instance has `max_keywords = 1`
and returns four keywords including a case-duplicate pair. -/
theorem single_keywords_no_dedup :
    (∀ (api : ModelApi) (maxChars fuel : Nat) (t : Str) (mk : Nat) (txt : Str),
      t.length ≤ maxChars → api (singleKeywordsMsg ⟨t, mk⟩) = .ok txt →
      generateKeywords api maxChars fuel ⟨t, mk⟩ = some (parseKeywords txt)) ∧
    generateKeywords (fun _ => .ok (lit "a, b, A, a")) 10 0 ⟨lit "t", 1⟩ =
      some [lit "a", lit "b", lit "A", lit "a"] := by
  constructor
  · intro api maxChars fuel t mk txt hlen hapi
    simp [generateKeywords, Nat.not_lt.mpr hlen, generateSingleKeywords, hapi]
  · rfl

/-- C10 witness: the single-path theorem applied at a concrete transcript and
response. -/
theorem single_keywords_no_dedup_witness :
    generateKeywords (fun _ => .ok (lit "x, y")) 5 0 ⟨lit "abc", 20⟩ =
      some [lit "x", lit "y"] :=
  single_keywords_no_dedup.1 (fun _ => .ok (lit "x, y")) 5 0 (lit "abc") 20
    (lit "x, y") (by decide) rfl

/-! ## Claim C8 -/

/-- C8: `generate_keywords` never raises: when every model call fails, the
single-chunk path returns the empty list, and the chunked path (whenever the
chunking loop terminates) skips every failed chunk and also returns the empty
list. -/
theorem keywords_never_raise (api : ModelApi) (maxChars fuel : Nat)
    (req : KeywordsRequest) (e : ApiErr) (hfail : ∀ p, api p = .error e) :
    (req.transcript.length ≤ maxChars →
      generateKeywords api maxChars fuel req = some []) ∧
    (∀ chunks, chunkTranscript req.transcript maxChars 500 fuel = some chunks →
      generateKeywords api maxChars fuel req = some []) := by
  constructor
  · intro hlen
    simp [generateKeywords, Nat.not_lt.mpr hlen, generateSingleKeywords, hfail]
  · intro chunks hc
    unfold generateKeywords
    split
    · unfold generateChunkedKeywords
      rw [hc]
      have hall : ((withIdx 0 chunks).map
          (chunkKeywordsOf api chunks.length req.maxKeywords)).flatten = [] := by
        simp only [List.flatten_eq_nil_iff, List.mem_map]
        rintro l ⟨p, _, rfl⟩
        simp [chunkKeywordsOf, hfail]
      simp [hall, dedupCI, dedupCIGo]
    · simp [generateSingleKeywords, hfail]

set_option maxRecDepth 4000 in
/-- C8 witness: all calls failing on a short transcript and on a chunked
four-chunk transcript both give the empty keyword list. -/
theorem keywords_never_raise_witness :
    generateKeywords (fun _ => .error ⟨.apiError, lit "down"⟩) 10 0
      ⟨lit "short", 20⟩ = some [] ∧
    generateKeywords (fun _ => .error ⟨.apiError, lit "down"⟩) 700 701
      ⟨List.replicate 701 'a', 20⟩ = some [] :=
  ⟨(keywords_never_raise (fun _ => .error ⟨.apiError, lit "down"⟩) 10 0
      ⟨lit "short", 20⟩ ⟨.apiError, lit "down"⟩ (fun _ => rfl)).1 (by decide),
   (keywords_never_raise (fun _ => .error ⟨.apiError, lit "down"⟩) 700 701
      ⟨List.replicate 701 'a', 20⟩ ⟨.apiError, lit "down"⟩ (fun _ => rfl)).2
      [List.replicate 700 'a', List.replicate 501 'a', List.replicate 301 'a',
        List.replicate 101 'a'] (by decide)⟩

/-! ## Claim C6 -/

theorem startsWith_nil (s : Str) : startsWith s [] = true := by
  cases s <;> rfl

theorem hasSub_nil_pat (s : Str) : hasSub s [] = true := by
  induction s with
  | nil => simp [hasSub, startsWith_nil]
  | cons c tl ih => simp [hasSub, startsWith_nil]

theorem startsWith_self_append (p y : Str) : startsWith (p ++ y) p = true := by
  induction p with
  | nil => exact startsWith_nil y
  | cons c ps ih => simp [startsWith, ih]

theorem startsWith_extend {s p : Str} (y : Str) (h : startsWith s p = true) :
    startsWith (s ++ y) p = true := by
  induction p generalizing s with
  | nil => exact startsWith_nil _
  | cons q qs ih =>
    cases s with
    | nil => simp [startsWith] at h
    | cons c tl =>
      simp only [startsWith, Bool.and_eq_true] at h
      simp only [List.cons_append, startsWith, Bool.and_eq_true]
      exact ⟨h.1, ih h.2⟩

theorem hasSub_append_middle (x p y : Str) : hasSub (x ++ p ++ y) p = true := by
  induction x with
  | nil =>
    simp only [List.nil_append]
    cases p with
    | nil => exact hasSub_nil_pat y
    | cons q qs =>
      simp only [List.cons_append, hasSub, Bool.or_eq_true]
      exact Or.inl (by simpa using startsWith_self_append (q :: qs) y)
  | cons c xs ih =>
    simp only [List.cons_append, hasSub, Bool.or_eq_true]
    exact Or.inr (by simpa using ih)

theorem hasSub_append_left {x : Str} (p y : Str) (h : hasSub x p = true) :
    hasSub (x ++ y) p = true := by
  induction x with
  | nil =>
    have hp : p = [] := by
      cases p with
      | nil => rfl
      | cons q qs => simp [hasSub, startsWith] at h
    subst hp
    exact hasSub_nil_pat y
  | cons c xs ih =>
    simp only [hasSub, Bool.or_eq_true] at h
    simp only [List.cons_append, hasSub, Bool.or_eq_true]
    rcases h with h | h
    · exact Or.inl (startsWith_extend y h)
    · exact Or.inr (ih h)

theorem dedupCIGo_sublist (seen : List Str) (l : List Str) :
    (dedupCIGo seen l).Sublist l := by
  induction l generalizing seen with
  | nil => simp [dedupCIGo]
  | cons k rest ih =>
    rw [dedupCIGo]
    split
    · exact (ih seen).cons k
    · exact (ih (lowerStr k :: seen)).cons₂ k

theorem dedupCIGo_spec (seen : List Str) (l : List Str) :
    (∀ y ∈ dedupCIGo seen l, lowerStr y ∉ seen) ∧
    (dedupCIGo seen l).Pairwise (fun a b => lowerStr a ≠ lowerStr b) := by
  induction l generalizing seen with
  | nil => simp [dedupCIGo]
  | cons k rest ih =>
    rw [dedupCIGo]
    split
    · exact ih seen
    · rename_i hc
      have hnot : lowerStr k ∉ seen := by
        simpa using hc
      obtain ⟨hseen, hpw⟩ := ih (lowerStr k :: seen)
      refine ⟨?_, ?_⟩
      · intro y hy
        rcases List.mem_cons.mp hy with rfl | hy
        · exact hnot
        · exact fun hmem => hseen y hy (List.mem_cons_of_mem _ hmem)
      · refine List.Pairwise.cons ?_ hpw
        intro y hy heq
        exact hseen y hy (by rw [← heq]; exact List.mem_cons_self _ _)

/-- C6: in chunked keyword extraction, every chunk prompt asks for
`min(max_keywords, 10)` keywords, and the result is the per-chunk keyword
lists concatenated in chunk order, case-insensitively de-duplicated (a
sublist of the concatenation, so first occurrences keep their original
casing, with pairwise distinct lowercase forms) and truncated to
`max_keywords`; in particular merged chunk outputs
`["AI", "ai", "Machine Learning"]` de-duplicate to
`["AI", "Machine Learning"]`. -/
theorem chunked_keywords_merge :
    (∀ (api : ModelApi) (maxChars fuel mk : Nat) (t : Str) (chunks : List Str),
      chunkTranscript t maxChars 500 fuel = some chunks →
      generateChunkedKeywords api maxChars fuel ⟨t, mk⟩ =
        some ((dedupCI (((withIdx 0 chunks).map
          (chunkKeywordsOf api chunks.length mk)).flatten)).take mk)) ∧
    (∀ (i n mk : Nat) (chunk : Str),
      hasSub (chunkKeywordsMsg i n mk chunk) (lit (Nat.repr (min mk 10))) = true) ∧
    (∀ l : List Str, (dedupCI l).Sublist l) ∧
    (∀ l : List Str, (dedupCI l).Pairwise (fun a b => lowerStr a ≠ lowerStr b)) ∧
    (∀ (l : List Str) (mk : Nat), ((dedupCI l).take mk).length ≤ mk) ∧
    dedupCI [lit "AI", lit "ai", lit "Machine Learning"] =
      [lit "AI", lit "Machine Learning"] := by
  refine ⟨?_, ?_, ?_, ?_, ?_, ?_⟩
  · intro api maxChars fuel mk t chunks hc
    simp [generateChunkedKeywords, hc]
  · intro i n mk chunk
    unfold chunkKeywordsMsg
    rw [show
      lit "Extract the most important keywords and key phrases from this SECTION " ++
        lit (Nat.repr (i + 1)) ++ lit "/" ++ lit (Nat.repr n) ++
        lit " of a longer transcript. Focus on main topics, concepts, people, technologies, and terminology mentioned. Return a list of " ++
        lit (Nat.repr (min mk 10)) ++
        lit " keywords or phrases from this section, ordered by relevance. Format as a simple comma-separated list without numbering or bullet points." ++
        lit "\n\nHere is section " ++ lit (Nat.repr (i + 1)) ++ lit "/" ++ lit (Nat.repr n) ++
        lit " of the transcript:\n\n" ++ chunk =
      (lit "Extract the most important keywords and key phrases from this SECTION " ++
        lit (Nat.repr (i + 1)) ++ lit "/" ++ lit (Nat.repr n) ++
        lit " of a longer transcript. Focus on main topics, concepts, people, technologies, and terminology mentioned. Return a list of ") ++
        lit (Nat.repr (min mk 10)) ++
        (lit " keywords or phrases from this section, ordered by relevance. Format as a simple comma-separated list without numbering or bullet points." ++
        lit "\n\nHere is section " ++ lit (Nat.repr (i + 1)) ++ lit "/" ++ lit (Nat.repr n) ++
        lit " of the transcript:\n\n" ++ chunk) from by simp]
    exact hasSub_append_middle _ _ _
  · intro l
    exact dedupCIGo_sublist [] l
  · intro l
    exact (dedupCIGo_spec [] l).2
  · intro l mk
    exact List.length_take_le mk _
  · decide

set_option maxRecDepth 4000 in
/-- C6 witness: the merge theorem applied to a concrete five-chunk run whose
every chunk answers `"AI, ai"`, merging to the single keyword `"AI"`. -/
theorem chunked_keywords_merge_witness :
    generateChunkedKeywords (fun _ => .ok (lit "AI, ai")) 700 701
      ⟨List.replicate 701 'a', 20⟩ = some [lit "AI"] := by
  have h := chunked_keywords_merge.1 (fun _ => .ok (lit "AI, ai")) 700 701 20
    (List.replicate 701 'a')
    [List.replicate 700 'a', List.replicate 501 'a', List.replicate 301 'a',
      List.replicate 101 'a'] (by decide)
  rw [h]
  rfl

/-! ## Claim C3 -/

/-- A text containing no sentence break (`". "`, `"! "`, `"? "`) anywhere. -/
def breakFree (t : Str) : Prop := ∀ i, breakAt t i = false

theorem checkTwo_take {m : Nat} {ys : Str} (h : checkTwo (ys.take m) = true) :
    checkTwo ys = true := by
  match m, ys with
  | 0, ys => simp [checkTwo] at h
  | _ + 1, [] => simp [checkTwo] at h
  | 1, c :: tl => simp [checkTwo] at h
  | m + 2, [c] => simp [checkTwo] at h
  | m + 2, c :: d :: rest => simpa [checkTwo] using h

theorem breakAt_drop (xs : Str) (a i : Nat) :
    breakAt (xs.drop a) i = breakAt xs (a + i) := by
  unfold breakAt
  rw [List.drop_drop]

theorem breakAt_take {xs : Str} {n i : Nat} (h : breakAt (xs.take n) i = true) :
    breakAt xs i = true := by
  unfold breakAt at *
  rw [List.drop_take] at h
  exact checkTwo_take h

theorem breakFree_slice {t : Str} (h : breakFree t) (a b : Int) :
    ∀ i, breakAt (pySlice t a b) i = false := by
  intro i
  unfold pySlice
  cases hb : breakAt ((t.take (pyIdx t.length b)).drop (pyIdx t.length a)) i with
  | false => rfl
  | true =>
    rw [breakAt_drop] at hb
    have := breakAt_take hb
    rw [h] at this
    cases this

theorem lastBreak_eq_none {l : Str} (h : ∀ i, breakAt l i = false) :
    lastBreak l = none := by
  unfold lastBreak
  rw [List.max?_eq_none_iff, List.filter_eq_nil_iff]
  intro a _
  simp [h]

theorem computeEnd_nosnap {t : Str} (M : Nat) (s : Int) (hbf : breakFree t) :
    computeEnd t M s = s + M := by
  unfold computeEnd
  split
  · rw [lastBreak_eq_none (breakFree_slice hbf _ _)]
  · rfl

theorem chunkGo_nosnap_count (t : Str) (M O : Nat) (hO : O < M) (hbf : breakFree t) :
    ∀ fuel sn : Nat, t.length ≤ sn + fuel →
      ∃ cs, chunkGo t M O fuel (sn : Int) = some cs ∧
        cs.length = if sn < t.length then (t.length - sn - 1) / (M - O) + 1 else 0 := by
  intro fuel
  induction fuel with
  | zero =>
    intro sn hle
    have hns : ¬ ((sn : Int) < (t.length : Int)) := by
      rw [Int.not_lt]
      exact_mod_cast hle
    refine ⟨[], ?_, ?_⟩
    · unfold chunkGo
      rw [if_neg hns]
    · rw [if_neg (by omega)]
      rfl
  | succ fuel ih =>
    intro sn hle
    by_cases hsn : sn < t.length
    · have he := computeEnd_nosnap (t := t) M (sn : Int) hbf
      have harg : computeEnd t M (sn : Int) - (O : Int) = ((sn + (M - O) : Nat) : Int) := by
        rw [he]; push_cast; omega
      obtain ⟨cs, hcs, hlen⟩ := ih (sn + (M - O)) (by omega)
      refine ⟨pySlice t (sn : Int) (computeEnd t M (sn : Int)) :: cs, ?_, ?_⟩
      · unfold chunkGo
        rw [if_pos (by exact_mod_cast hsn), harg, hcs]
      · rw [if_pos hsn, List.length_cons, hlen]
        by_cases hnext : sn + (M - O) < t.length
        · rw [if_pos hnext]
          have hd : t.length - sn - 1 = (t.length - (sn + (M - O)) - 1) + (M - O) := by omega
          rw [hd, Nat.add_div_right _ (by omega)]
        · rw [if_neg hnext]
          have hz : (t.length - sn - 1) / (M - O) = 0 :=
            Nat.div_eq_of_lt (by omega)
          simp [hz]
    · refine ⟨[], ?_, ?_⟩
      · unfold chunkGo
        rw [if_neg (by exact_mod_cast hsn)]
      · rw [if_neg hsn]
        rfl

/-- Chunk count for a break-free text: the loop advances by exactly
`M - O` per chunk, so a text longer than `M` splits into
`(L - 1) / (M - O) + 1` chunks — the ceiling of `L / (M - O)`. -/
theorem chunkTranscript_nosnap_count (t : Str) (M O : Nat) (hO : O < M)
    (hbf : breakFree t) (hlen : M < t.length) :
    ∃ cs, chunkTranscript t M O t.length = some cs ∧
      cs.length = (t.length - 1) / (M - O) + 1 := by
  unfold chunkTranscript
  rw [if_neg (by omega)]
  obtain ⟨cs, hcs, hcnt⟩ :=
    chunkGo_nosnap_count t M O hO hbf t.length 0 (by omega)
  refine ⟨cs, ?_, ?_⟩
  · exact_mod_cast hcs
  · rw [hcnt, if_pos (by omega)]
    simp

theorem breakFree_replicate (n : Nat) : breakFree (List.replicate n 'a') := by
  intro i
  unfold breakAt
  rw [List.drop_replicate]
  cases h : n - i with
  | zero => rfl
  | succ m =>
    cases m with
    | zero => rfl
    | succ m' => rfl

/-- C3 counterexample: the claim's own instance `L = 2500`, `maxChars = 1000`,
`overlap = 500` on a break-free text does not produce
`ceil((L-O)/(M-O)) = 4` chunks — the loop produces 5 chunks. -/
theorem chunk_count_example_not_four :
    (chunkTranscript (List.replicate 2500 'a') 1000 500 2500).map List.length ≠ some 4 := by
  obtain ⟨cs, hcs, hcnt⟩ := chunkTranscript_nosnap_count (List.replicate 2500 'a') 1000 500
    (by omega) (breakFree_replicate 2500) (by rw [List.length_replicate]; omega)
  rw [List.length_replicate] at hcs hcnt
  intro h
  rw [hcs] at h
  simp only [Option.map_some', Option.some.injEq] at h
  rw [h] at hcnt
  norm_num at hcnt

/-- C3 (amended): for a break-free text of length `L > M` and `O < M`, the
chunking loop terminates (with fuel `L`) and produces exactly
`(L - 1) / (M - O) + 1 = ceil(L / (M - O))` chunks — not
`ceil((L - O) / (M - O))`: each iteration advances the start by `M - O`
beginning at 0, so the starts are `0, M-O, 2(M-O), ...` strictly below `L`. -/
theorem chunk_count_formula (t : Str) (M O : Nat) (hbf : breakFree t) (hO : O < M)
    (hlen : M < t.length) :
    ∃ cs, chunkTranscript t M O t.length = some cs ∧
      cs.length = (t.length - 1) / (M - O) + 1 ∧
      cs.length = (t.length + (M - O) - 1) / (M - O) := by
  obtain ⟨cs, h1, h2⟩ := chunkTranscript_nosnap_count t M O hO hbf hlen
  refine ⟨cs, h1, h2, ?_⟩
  have hd : t.length + (M - O) - 1 = (t.length - 1) + (M - O) := by omega
  rw [h2, hd, Nat.add_div_right _ (by omega)]

/-- C3 witness: the amended count formula at `L = 5`, `M = 2`, `O = 1`,
giving `ceil(5/1) = 5` chunks. -/
theorem chunk_count_formula_witness :
    ∃ cs, chunkTranscript (List.replicate 5 'a') 2 1 5 = some cs ∧ cs.length = 5 := by
  obtain ⟨cs, h1, h2, h3⟩ := chunk_count_formula (List.replicate 5 'a') 2 1
    (breakFree_replicate 5) (by decide) (by rw [List.length_replicate]; omega)
  rw [List.length_replicate] at h1 h2
  exact ⟨cs, h1, by simpa using h2⟩

/-! ## Claim C4 -/

theorem intercalate_cons_exists (sep x : Str) (xs : List Str) :
    ∃ tl, List.intercalate sep (x :: xs) = x ++ tl := by
  cases xs with
  | nil => exact ⟨[], by simp [List.intercalate]⟩
  | cons y ys =>
    refine ⟨sep ++ List.intercalate sep (y :: ys), ?_⟩
    simp [List.intercalate, List.intersperse]

set_option maxRecDepth 4000 in
/-- C4 counterexample: a transcript longer than `max_transcript_chars`
(701 characters against a 700-character limit) with an always-failing
endpoint returns a summary string that carries the failure message but does
not contain the literal substring `"Error Generating Summary"` — the chunked
path uses the per-section note `"*Error processing this section: ...*"`
instead. -/
theorem chunked_summary_error_note_lacks_header :
    (generateSummary (fun _ => .error ⟨.apiError, lit "boom"⟩) 700 701
        ⟨List.replicate 701 'a', none⟩).map
      (fun S => hasSub S (lit "Error Generating Summary")) = some false ∧
    (generateSummary (fun _ => .error ⟨.apiError, lit "boom"⟩) 700 701
        ⟨List.replicate 701 'a', none⟩).map
      (fun S => hasSub S (lit "boom")) = some true := by
  constructor
  · decide
  · decide

theorem hasSub_append_right {y : Str} (x p : Str) (h : hasSub y p = true) :
    hasSub (x ++ y) p = true := by
  induction x with
  | nil => simpa using h
  | cons c xs ih =>
    simp only [List.cons_append, hasSub, Bool.or_eq_true]
    exact Or.inr ih

theorem hasSub_self (p : Str) : hasSub p p = true := by
  simpa using hasSub_append_middle [] p []

theorem chunkTranscript_ne_nil {t : Str} {M O fuel : Nat} {cs : List Str}
    (h : chunkTranscript t M O fuel = some cs) (hlen : M < t.length) : cs ≠ [] := by
  unfold chunkTranscript at h
  rw [if_neg (by omega)] at h
  cases fuel with
  | zero =>
    rw [chunkGo, if_pos (by omega)] at h
    cases h
  | succ fuel =>
    rw [chunkGo, if_pos (by omega)] at h
    split at h
    · cases h; simp
    · cases h

/-- C4 (amended): with an endpoint whose every call fails, `generate_summary`
always returns a string.  For transcripts within `max_transcript_chars` the
returned string is the fallback summary, containing the literal
`"Error Generating Summary"` and the error message.  For longer transcripts
(whenever the chunking loop terminates) the returned string instead contains
the per-section note `"*Error processing this section: "` followed by the
error message — not the `"Error Generating Summary"` header. -/
theorem summary_error_degradation (api : ModelApi) (e : ApiErr)
    (maxChars fuel : Nat) (req : SummaryRequest) (hfail : ∀ p, api p = .error e) :
    (req.transcript.length ≤ maxChars →
      generateSummary api maxChars fuel req = some (fallbackSummary e) ∧
      hasSub (fallbackSummary e) (lit "Error Generating Summary") = true ∧
      hasSub (fallbackSummary e) e.msg = true) ∧
    (∀ chunks, maxChars < req.transcript.length →
      chunkTranscript req.transcript maxChars 500 fuel = some chunks →
      ∃ S, generateSummary api maxChars fuel req = some S ∧
        hasSub S (lit "*Error processing this section: " ++ e.msg) = true) := by
  constructor
  · intro hlen
    refine ⟨?_, ?_, ?_⟩
    · simp [generateSummary, Nat.not_lt.mpr hlen, generateSingleSummary, hfail]
    · unfold fallbackSummary
      refine hasSub_append_left _ _ (hasSub_append_left _ _ (hasSub_append_left _ _
        (hasSub_append_left _ _ ?_)))
      decide
    · unfold fallbackSummary
      exact hasSub_append_middle _ _ _
  · intro chunks hgt hc
    have hne : chunks ≠ [] := chunkTranscript_ne_nil hc hgt
    obtain ⟨c0, rest, rfl⟩ : ∃ c0 rest, chunks = c0 :: rest := by
      cases chunks with
      | nil => exact absurd rfl hne
      | cons c0 rest => exact ⟨c0, rest, rfl⟩
    have hnote : ∀ (n : Nat) (p : Nat × Str), chunkSummaryOf api n p =
        lit "*Error processing this section: " ++ e.msg ++ lit "*" := by
      intro n p
      simp [chunkSummaryOf, hfail]
    have hsec : sectionSummaries api (c0 :: rest) =
        (0, lit "*Error processing this section: " ++ e.msg ++ lit "*") ::
          (withIdx 1 rest).map
            (fun p => (p.1, lit "*Error processing this section: " ++ e.msg ++ lit "*")) := by
      unfold sectionSummaries
      rw [withIdx]
      simp only [List.map_cons, hnote]
    have hcomb : ∃ tl, combineSections (c0 :: rest).length (sectionSummaries api (c0 :: rest)) =
        (lit "## Section " ++ lit (Nat.repr 1) ++ lit "/" ++ lit (Nat.repr (c0 :: rest).length) ++
          lit " Summary\n" ++ (lit "*Error processing this section: " ++ e.msg ++ lit "*")) ++ tl := by
      rw [hsec]
      unfold combineSections
      rw [List.map_cons]
      obtain ⟨tl, htl⟩ := intercalate_cons_exists (lit "\n\n") _ _
      rw [htl]
      exact ⟨tl, rfl⟩
    obtain ⟨tl, htl⟩ := hcomb
    unfold generateSummary
    rw [if_pos hgt]
    unfold generateChunkedSummary
    rw [hc]
    dsimp only
    by_cases hn : 1 < (c0 :: rest).length
    · rw [if_pos hn, hfail, htl]
      refine ⟨_, rfl, ?_⟩
      refine hasSub_append_right _ _ ?_
      refine hasSub_append_left _ _ ?_
      refine hasSub_append_right _ _ ?_
      exact hasSub_append_left _ _ (hasSub_self _)
    · rw [if_neg hn]
      have hrest : rest = [] := by
        simp only [List.length_cons, not_lt] at hn
        cases rest with
        | nil => rfl
        | cons _ _ => simp at hn
      subst hrest
      rw [hsec]
      refine ⟨_, rfl, ?_⟩
      simp only [List.map_cons, List.map_nil, List.headD_cons]
      exact hasSub_append_left _ _ (hasSub_self _)


/-- C4 witness: the degradation theorem applied to a short transcript with a
permanently failing endpoint. -/
theorem summary_error_degradation_witness :
    generateSummary (fun _ => .error ⟨.other (lit "ValueError"), lit "bad input"⟩) 100 0
      ⟨lit "short transcript", none⟩ =
      some (fallbackSummary ⟨.other (lit "ValueError"), lit "bad input"⟩) ∧
    hasSub (fallbackSummary ⟨.other (lit "ValueError"), lit "bad input"⟩)
      (lit "Error Generating Summary") = true ∧
    hasSub (fallbackSummary ⟨.other (lit "ValueError"), lit "bad input"⟩)
      (lit "bad input") = true :=
  (summary_error_degradation (fun _ => .error ⟨.other (lit "ValueError"), lit "bad input"⟩)
    ⟨.other (lit "ValueError"), lit "bad input"⟩ 100 0
    ⟨lit "short transcript", none⟩ (fun _ => rfl)).1 (by decide)

/-! ## Claim C7 -/

theorem checkTwo_length {l : Str} (h : checkTwo l = true) : 2 ≤ l.length := by
  match l with
  | [] => simp [checkTwo] at h
  | [c] => simp [checkTwo] at h
  | c :: d :: rest => simp

theorem checkTwo_take_intro {m : Nat} {ys : Str} (h2 : 2 ≤ m) (h : checkTwo ys = true) :
    checkTwo (ys.take m) = true := by
  match m, ys with
  | _, [] => simp [checkTwo] at h
  | _, [c] => simp [checkTwo] at h
  | 0, ys => omega
  | 1, ys => omega
  | m + 2, c :: d :: rest => simpa [checkTwo] using h

theorem breakAt_length {l : Str} {q : Nat} (h : breakAt l q = true) : q + 2 ≤ l.length := by
  unfold breakAt at h
  have h2 := checkTwo_length h
  rw [List.length_drop] at h2
  omega

theorem checkTwo_take_bound {m : Nat} {ys : Str} (h : checkTwo (ys.take m) = true) :
    2 ≤ m := by
  have h2 := checkTwo_length h
  rw [List.length_take] at h2
  omega

theorem breakAt_window_elim {t : Str} {A B i : Nat}
    (h : breakAt ((t.take B).drop A) i = true) :
    breakAt t (A + i) = true ∧ A + i + 2 ≤ B := by
  have hb : breakAt (t.take B) (A + i) = true := by
    rw [← breakAt_drop]
    exact h
  refine ⟨breakAt_take hb, ?_⟩
  unfold breakAt at hb
  rw [List.drop_take] at hb
  have := checkTwo_take_bound hb
  omega

theorem breakAt_window_intro {t : Str} {A B g : Nat} (hg : breakAt t g = true)
    (hA : A ≤ g) (hB : g + 2 ≤ B) : breakAt ((t.take B).drop A) (g - A) = true := by
  rw [breakAt_drop]
  have hge : A + (g - A) = g := by omega
  rw [hge]
  unfold breakAt at hg ⊢
  rw [List.drop_take]
  exact checkTwo_take_intro (by omega) hg

theorem lastBreak_spec {l : Str} {p : Nat} (h : lastBreak l = some p) :
    breakAt l p = true ∧ ∀ q, p < q → breakAt l q = false := by
  unfold lastBreak at h
  rw [List.max?_eq_some_iff'] at h
  obtain ⟨hmem, hmax⟩ := h
  have hp : breakAt l p = true := (List.mem_filter.mp hmem).2
  refine ⟨hp, ?_⟩
  intro q hq
  cases hbq : breakAt l q with
  | false => rfl
  | true =>
    have hqlen : q < l.length := by
      have := breakAt_length hbq
      omega
    have hqmem : q ∈ (List.range l.length).filter (fun i => breakAt l i) :=
      List.mem_filter.mpr ⟨List.mem_range.mpr hqlen, hbq⟩
    have := hmax q hqmem
    omega

theorem lastBreak_none' {l : Str} (h : lastBreak l = none) :
    ∀ q, breakAt l q = false := by
  intro q
  unfold lastBreak at h
  rw [List.max?_eq_none_iff, List.filter_eq_nil_iff] at h
  cases hbq : breakAt l q with
  | false => rfl
  | true =>
    have hqlen : q < l.length := by
      have := breakAt_length hbq
      omega
    exact absurd hbq (by simpa using h q (List.mem_range.mpr hqlen))

theorem lastBreak_exists {l : Str} {q : Nat} (h : breakAt l q = true) :
    ∃ p, lastBreak l = some p ∧ q ≤ p := by
  cases hlb : lastBreak l with
  | none => exact absurd h (by simp [lastBreak_none' hlb q])
  | some p =>
    refine ⟨p, rfl, ?_⟩
    by_contra hqp
    exact absurd h (by simp [(lastBreak_spec hlb).2 q (by omega)])

theorem pyIdx_nonneg {L a : Int} (h : 0 ≤ a) : pyIdx L a = (min a L).toNat := by
  unfold pyIdx
  rw [if_neg (by omega)]

theorem searchStart_nonneg (M : Nat) (s : Int) : 0 ≤ searchStart M s := by
  unfold searchStart
  omega

theorem searchStart_of_nonneg {M : Nat} {s : Int} (h : 0 ≤ s) :
    searchStart M s = s + window80 M := by
  unfold searchStart
  omega

theorem window_eq {t : Str} {M : Nat} {s : Int} (hs : s + M < t.length)
    (he0 : 0 ≤ s + M) :
    pySlice t (searchStart M s) (s + M) =
      (t.take (s + M).toNat).drop (searchStart M s).toNat := by
  unfold pySlice
  rw [pyIdx_nonneg (searchStart_nonneg M s), pyIdx_nonneg he0]
  have h1 : min (s + (M : Int)) (t.length : Int) = s + M := by omega
  have h2 : min (searchStart M s) (t.length : Int) = searchStart M s := by
    have hub : searchStart M s ≤ s + M := by
      unfold searchStart window80
      have : (4 * M / 5 : Nat) ≤ M := by omega
      omega
    unfold searchStart at hub ⊢
    omega
  rw [h1, h2]

/-- Case analysis on one cut decision from a non-negative start position:
either the cut is the plain `s + maxChars` (and, when the snapping branch ran,
the search window is break-free), or the cut sits two characters past a
sentence break `b` that is the last break in the window. -/
theorem computeEnd_inv (t : Str) (M : Nat) (s : Int) (h0 : 0 ≤ s) :
    (computeEnd t M s = s + M ∧
      (s + M < t.length →
        ∀ g : Nat, s + window80 M ≤ (g : Int) → (g : Int) + 2 ≤ s + M →
          breakAt t g = false)) ∨
    (∃ b : Nat, computeEnd t M s = (b : Int) + 2 ∧ breakAt t b = true ∧
      s + window80 M ≤ (b : Int) ∧ (b : Int) + 2 ≤ s + M ∧ s + M < (t.length : Int) ∧
      (∀ g : Nat, b < g → (g : Int) + 2 ≤ s + M → breakAt t g = false)) := by
  by_cases hsnap : s + (M : Int) < (t.length : Int)
  · have hW := window_eq (t := t) (M := M) (s := s) hsnap (by omega)
    have hss : searchStart M s = s + window80 M := searchStart_of_nonneg h0
    have hssc : ((searchStart M s).toNat : Int) = s + window80 M := by
      rw [Int.toNat_of_nonneg (searchStart_nonneg M s), hss]
    have hCE : computeEnd t M s =
        match lastBreak ((t.take (s + M).toNat).drop (searchStart M s).toNat) with
        | some p => searchStart M s + p + 2
        | none => s + M := by
      unfold computeEnd
      rw [if_pos hsnap, hW]
    cases hlb : lastBreak ((t.take (s + M).toNat).drop (searchStart M s).toNat) with
    | none =>
      left
      rw [hlb] at hCE
      refine ⟨hCE, ?_⟩
      intro _ g hg1 hg2
      cases hbg : breakAt t g with
      | false => rfl
      | true =>
        have hwin := breakAt_window_intro (B := (s + M).toNat)
          (A := (searchStart M s).toNat) hbg (by omega) (by omega)
        rw [lastBreak_none' hlb] at hwin
        cases hwin
    | some p =>
      right
      rw [hlb] at hCE
      obtain ⟨hp, hmax⟩ := lastBreak_spec hlb
      obtain ⟨hbrk, hbnd⟩ := breakAt_window_elim hp
      refine ⟨(searchStart M s).toNat + p, ?_, hbrk, by omega, by omega, hsnap, ?_⟩
      · rw [hCE]
        have hc1 : (((searchStart M s).toNat + p : Nat) : Int) =
            searchStart M s + (p : Int) := by
          push_cast [Int.toNat_of_nonneg (searchStart_nonneg M s)]
          ring
        rw [hc1]
      · intro g hg1 hg2
        cases hbg : breakAt t g with
        | false => rfl
        | true =>
          have hwin := breakAt_window_intro (B := (s + M).toNat)
            (A := (searchStart M s).toNat) hbg (by omega) (by omega)
          rw [hmax (g - (searchStart M s).toNat) (by omega)] at hwin
          cases hwin
  · left
    have hCE : computeEnd t M s = s + M := by
      unfold computeEnd
      rw [if_neg hsnap]
    exact ⟨hCE, fun h => absurd h hsnap⟩

/-- Monotonicity of cut positions: a chunk start produced by the previous cut
minus the overlap cuts at or beyond the previous cut position, for overlaps
below `maxChars`.  This is the key fact making the overlapped chunks cover
the text with no gap. -/
theorem computeEnd_mono (t : Str) (M O : Nat) (hO : O < M) {s₀ s : Int}
    (h00 : 0 ≤ s₀) (hprev : s = computeEnd t M s₀ - O) (h0 : 0 ≤ s) :
    s + O ≤ computeEnd t M s := by
  have hEprev : s + O = computeEnd t M s₀ := by omega
  rcases computeEnd_inv t M s h0 with ⟨hE, _⟩ | ⟨b', hE, hbrk', hblo', hbhi', hsnap', hmax'⟩
  · rw [hE]
    omega
  · rw [hE]
    rcases computeEnd_inv t M s₀ h00 with ⟨hE0, hfree0⟩ | ⟨b₀, hE0, hbrk0, hblo0, hbhi0, hsnap0, hmax0⟩
    · rw [hE0] at hEprev
      by_cases hin : s₀ + (M : Int) < t.length
      · by_contra hlt
        push_neg at hlt
        have hfalse := hfree0 hin b' (by omega) (by omega)
        rw [hfalse] at hbrk'
        cases hbrk'
      · omega
    · rw [hE0] at hEprev
      by_cases hw : (O : Int) < window80 M + 2
      · omega
      · by_contra hlt
        push_neg at hlt
        have hgt : b₀ > b' := by omega
        have hfalse := hmax' b₀ hgt (by omega)
        rw [hfalse] at hbrk0
        cases hbrk0

/-- A start position that reproduces itself makes the chunking loop run
forever: the fuel-indexed loop returns `none` at every fuel. -/
theorem chunkGo_stall (t : Str) (M O : Nat) {s : Int}
    (hfix : computeEnd t M s - O = s) (hsL : s < (t.length : Int)) :
    ∀ fuel, chunkGo t M O fuel s = none := by
  intro fuel
  induction fuel with
  | zero =>
    rw [chunkGo, if_pos hsL]
  | succ fuel ih =>
    rw [chunkGo, if_pos hsL, hfix, ih]

/-- A negative start (the Python `start = end - overlap` gone below zero,
reachable only right after a snapped cut shorter than the overlap) is a fixed
point of the loop: the same break is found again and the cut lands on the
same position, so the loop stalls. -/
theorem computeEnd_fixed (t : Str) (M O : Nat) (hO : O < M)
    (hML : (M : Int) < t.length) {s₀ s' : Int} (h00 : 0 ≤ s₀)
    (hprev : s' = computeEnd t M s₀ - O) (hneg : s' < 0) :
    computeEnd t M s' = s' + O := by
  have hEprev : s' + O = computeEnd t M s₀ := by omega
  rcases computeEnd_inv t M s₀ h00 with ⟨hE0, _⟩ | ⟨b, hE0, hbrk, hblo, hbhi, hsnap0, hmax⟩
  · rw [hE0] at hEprev
    omega
  · rw [hE0] at hEprev
    have hw80 : (window80 M : Int) + 2 < O := by omega
    have hsnap' : s' + (M : Int) < t.length := by omega
    have he0' : 0 ≤ s' + (M : Int) := by omega
    have hW := window_eq (t := t) (M := M) (s := s') hsnap' he0'
    have hssnn := searchStart_nonneg M s'
    have hssc : ((searchStart M s').toNat : Int) = searchStart M s' :=
      Int.toNat_of_nonneg hssnn
    have hssub : searchStart M s' ≤ (b : Int) := by
      unfold searchStart
      omega
    have hwin := breakAt_window_intro (t := t) (B := (s' + M).toNat)
      (A := (searchStart M s').toNat) hbrk (by omega) (by omega)
    obtain ⟨p', hlb', hge'⟩ := lastBreak_exists hwin
    obtain ⟨hp', hmax'⟩ := lastBreak_spec hlb'
    obtain ⟨hbrk', hbnd'⟩ := breakAt_window_elim hp'
    have hble : (searchStart M s').toNat + p' ≤ b := by
      by_contra hgt
      push_neg at hgt
      have hfalse := hmax ((searchStart M s').toNat + p') hgt (by omega)
      rw [hfalse] at hbrk'
      cases hbrk'
    have hbeq : (searchStart M s').toNat + p' = b := by omega
    have hCE : computeEnd t M s' = searchStart M s' + p' + 2 := by
      unfold computeEnd
      rw [if_pos hsnap', hW, hlb']
    rw [hCE]
    omega

theorem take_drop_glue (l : List Char) (a k : Nat) (ha : a ≤ k) :
    (l.take (min k l.length)).drop a ++ l.drop k = l.drop a := by
  by_cases hk : k ≤ l.length
  · rw [min_eq_left hk]
    conv_rhs => rw [← List.take_append_drop k l]
    rw [List.drop_append_of_le_length (by rw [List.length_take]; omega)]
  · have h1 : min k l.length = l.length := by omega
    rw [h1, List.take_length, List.drop_eq_nil_of_le (show l.length ≤ k by omega),
      List.append_nil]

/-- Loop invariant for core reconstruction: starting from any position that
arose as `previous cut - overlap`, the concatenation of the remaining chunks
with their leading `overlap` characters removed is exactly the text from the
previous cut onward. -/
theorem chunkGo_join (t : Str) (M O : Nat) (hO : O < M) :
    ∀ (fuel : Nat) (s : Int) (cs : List Str), 0 ≤ s →
      (∃ s₀ : Int, 0 ≤ s₀ ∧ s = computeEnd t M s₀ - O) →
      chunkGo t M O fuel s = some cs →
      (cs.map (fun c => c.drop O)).flatten = t.drop (s + O).toNat := by
  intro fuel
  induction fuel with
  | zero =>
    intro s cs h0 _ hc
    rw [chunkGo] at hc
    split at hc
    · cases hc
    · rename_i hns
      cases hc
      simp only [List.map_nil, List.flatten_nil]
      rw [eq_comm, List.drop_eq_nil_of_le]
      omega
  | succ fuel ih =>
    intro s cs h0 hprev hc
    rw [chunkGo] at hc
    split at hc
    · rename_i hsL
      obtain ⟨s₀, h00, hse⟩ := hprev
      have hmono := computeEnd_mono t M O hO h00 hse h0
      split at hc
      · rename_i cs' hin
        cases hc
        have harg : computeEnd t M s - O + O = computeEnd t M s := by omega
        have hIH := ih (computeEnd t M s - O) cs' (by omega) ⟨s, h0, rfl⟩ hin
        rw [harg] at hIH
        simp only [List.map_cons, List.flatten_cons]
        rw [hIH]
        have hmin1 : pyIdx t.length (computeEnd t M s) =
            min (computeEnd t M s).toNat t.length := by
          rw [pyIdx_nonneg (by omega : (0:Int) ≤ computeEnd t M s)]
          omega
        have hmin2 : pyIdx t.length s = s.toNat := by
          rw [pyIdx_nonneg h0]
          omega
        have hpy : pySlice t s (computeEnd t M s) =
            (t.take (min (computeEnd t M s).toNat t.length)).drop s.toNat := by
          unfold pySlice
          rw [hmin1, hmin2]
        rw [hpy, List.drop_drop]
        have hfin := take_drop_glue t (s.toNat + O) (computeEnd t M s).toNat (by omega)
        rw [hfin]
        congr 1
        omega
      · cases hc
    · rename_i hns
      cases hc
      simp only [List.map_nil, List.flatten_nil]
      rw [eq_comm, List.drop_eq_nil_of_le]
      omega

/-- C7: whenever the chunking loop terminates, its chunks cover the whole
input losslessly: every chunk after the first begins exactly at the previous
cut position minus the overlap, so concatenating the first chunk with every
later chunk stripped of its leading `overlap` characters reconstructs the
original text exactly. -/
theorem chunk_cores_reconstruct (t : Str) (M O fuel : Nat) (cs : List Str)
    (hO : O < M) (hc : chunkTranscript t M O fuel = some cs) :
    joinCores O cs = t := by
  unfold chunkTranscript at hc
  by_cases hlen : t.length ≤ M
  · rw [if_pos hlen] at hc
    cases hc
    unfold joinCores
    simp
  · rw [if_neg hlen] at hc
    have hML : (M : Int) < (t.length : Int) := by omega
    cases fuel with
    | zero =>
      rw [chunkGo, if_pos (by omega)] at hc
      cases hc
    | succ fuel =>
      rw [chunkGo, if_pos (by omega)] at hc
      by_cases hneg : computeEnd t M 0 - O < 0
      · have hfix : computeEnd t M (computeEnd t M 0 - O) - O = computeEnd t M 0 - O := by
          have := @computeEnd_fixed t M O hO hML 0 (computeEnd t M 0 - O)
            (by omega) rfl hneg
          omega
        rw [chunkGo_stall t M O hfix (by omega) fuel] at hc
        cases hc
      · push_neg at hneg
        split at hc
        · rename_i cs' hin
          cases hc
          have hIH := chunkGo_join t M O hO fuel (computeEnd t M 0 - O) cs' hneg
            ⟨0, by omega, rfl⟩ hin
          have harg : computeEnd t M 0 - O + O = computeEnd t M 0 := by omega
          rw [harg] at hIH
          unfold joinCores
          dsimp only
          rw [hIH]
          have hE0 : (0 : Int) ≤ computeEnd t M 0 := by omega
          have hmin1 : pyIdx t.length (computeEnd t M 0) =
              min (computeEnd t M 0).toNat t.length := by
            rw [pyIdx_nonneg hE0]
            omega
          have hmin2 : pyIdx t.length (0 : Int) = 0 := by
            rw [pyIdx_nonneg (by omega)]
            omega
          unfold pySlice
          rw [hmin1, hmin2, List.drop_zero]
          have := take_drop_glue t 0 (computeEnd t M 0).toNat (by omega)
          rw [List.drop_zero] at this
          exact this
        · cases hc

/-- C7 witness: the reconstruction theorem applied to the concrete run
`text = "aaaaa"`, `maxChars = 2`, `overlap = 1`. -/
theorem chunk_cores_reconstruct_witness :
    joinCores 1 [lit "aa", lit "aa", lit "aa", lit "aa", lit "a"] = lit "aaaaa" :=
  chunk_cores_reconstruct (lit "aaaaa") 2 1 5
    [lit "aa", lit "aa", lit "aa", lit "aa", lit "a"] (by decide) (by decide)
